import Mathlib

/-!
# postcard_scan_extractor: a shallow embedding of `postcard_scan_extractor.h`

The development embeds the interactive session of `PostcardScanExtractor`
(`src/postcard_scan_extractor.h`) as pure state-passing functions and proves
properties of the specification against them.

Conventions of the embedding.

* `double` and `float` values are exact rationals (`ℚ`): every arithmetic
  operation of the source is exact in the embedding.  The only irrational
  quantity of the source, `hypot`, is kept through its exact square
  (`dist_L2_sq`) and its conversion to `int` (`trunc_sqrt`).  The embedding
  computes what the program computes wherever the exact values are themselves
  `float` values, as the hires corners with integer coordinates are; where the
  program rounds (a display factor that does not divide the display
  coordinates, the inverse of `win_cb` on an oblique first side), its stored
  value is the `float` or `double` nearest to the value of the embedding, and a
  conversion to `int` next to an integer can differ by one.
* `int` coordinates (`cv::Point`) are mathematical integers: signed overflow
  is undefined behaviour in C++ and window coordinates are far from it.
  `unsigned int` counters wrap modulo `2^32`, `size_t` modulo `2^64`.
* A conversion `double -> int` truncates toward zero (`truncToInt`).
* OpenCV is an external collaborator.  `transpose`, `flip` and `Mat::inv` are
  embedded by their documented contract; image decoding, resampling and warping
  (`imread`, `resize`, `getAffineTransform` + `warpAffine`) are parameters,
  collected in the structure `OpenCV`.  The file system is a log of the
  `imwrite` calls.
* Presentation buffers (`_final_window`, `_zoom_img`, thumbnails) carry no
  session state and are not represented: `redraw_final_window` and
  `recompute_zoom_and_redraw` are the identity on the embedded state.
* Every OpenCV call returns normally; in particular the thumbnail that
  `save_current_postcard` resizes before it writes is taken to have pixels,
  which fails only for a postcard at least 400 times longer than wide.
  `exit(0)` of `quit()` ends the session: a function that can reach it returns
  an `Option`.
* A `std::string` is the list of its characters: `'.'` and `'/'` are single
  bytes in every encoding of a path that `remove_filename_extension` can meet.
-/

namespace PSE

/-! ## `remove_filename_extension` -/

/-- Embeds `std::string::find_last_of(c)`: position of the last occurrence of `c`,
`none` standing for `std::string::npos`. -/
def find_last_of : List Char → Char → Option Nat
  | [], _ => none
  | x :: xs, c =>
    match find_last_of xs c with
    | some i => some (i + 1)
    | none => if x = c then some 0 else none

/-- Embeds `remove_filename_extension` on the characters of the path. -/
def remove_filename_extension_chars (path : List Char) : List Char :=
  match find_last_of path '.' with
  | none => path
  | some dot_pos =>
    match find_last_of path '/' with
    | some slash_pos =>
      if slash_pos > dot_pos then path -- dot before slash
      else path.take dot_pos
    | none => path.take dot_pos

/-- Embeds `remove_filename_extension(path)`. -/
def remove_filename_extension (path : String) : String :=
  String.mk (remove_filename_extension_chars path.data)

/-- The part of a path after its last `'/'` (the whole path when it has no
`'/'`): the final path component, as the specification words it. -/
def final_component (path : List Char) : List Char :=
  (path.reverse.takeWhile (fun c => c != '/')).reverse

/-! ## Pixel buffers -/

/-- One `cv::Vec3b` pixel (blue, green, red). -/
abbrev Vec3b := Fin 256 × Fin 256 × Fin 256

/-- A `cv::Mat3b`: `rows x cols` pixels. -/
structure Mat where
  rows : Nat
  cols : Nat
  px : Fin rows → Fin cols → Vec3b

namespace Mat

/-- A buffer without pixels, as after `Mat::release()`. -/
def released : Mat := ⟨0, 0, fun i _ => i.elim0⟩

/-- Embeds `Mat::empty()`: no element. -/
def empty (m : Mat) : Bool := m.rows * m.cols == 0

/-- Embeds `Mat::create(rows, cols)` followed by `setTo(v)`. -/
def filled (rows cols : Nat) (v : Vec3b) : Mat := ⟨rows, cols, fun _ _ => v⟩

end Mat

/-- Embeds `cv::transpose(src, dst)`: `dst(i, j) = src(j, i)`. -/
def transpose (src : Mat) : Mat := ⟨src.cols, src.rows, fun i j => src.px j i⟩

/-- Embeds `cv::flip(src, dst, flipCode)`: `0` flips around the x axis (rows are
reversed), a positive code around the y axis (columns are reversed), a negative
code around both. -/
def flip (src : Mat) : Int → Mat
  | Int.ofNat 0 => ⟨src.rows, src.cols, fun i j => src.px i.rev j⟩
  | Int.ofNat (_ + 1) => ⟨src.rows, src.cols, fun i j => src.px i j.rev⟩
  | Int.negSucc _ => ⟨src.rows, src.cols, fun i j => src.px i.rev j.rev⟩

/-! ## Points and numeric conversions -/

/-- Embeds `cv::Point`: integer pixel coordinates. -/
structure Point where
  x : Int
  y : Int
deriving DecidableEq

instance : Add Point := ⟨fun p q => ⟨p.x + q.x, p.y + q.y⟩⟩
instance : Sub Point := ⟨fun p q => ⟨p.x - q.x, p.y - q.y⟩⟩

/-- Embeds `cv::Point2f`: real pixel coordinates. -/
structure Point2f where
  x : ℚ
  y : ℚ
deriving DecidableEq

/-- Conversion of a `double` to `int`: truncation toward zero. -/
def truncToInt (q : ℚ) : Int := if 0 ≤ q then ⌊q⌋ else ⌈q⌉

/-- Square of `dist_L2(a, b) = hypot(a.x - b.x, a.y - b.y)`. -/
def dist_L2_sq (a b : Point2f) : ℚ := (a.x - b.x) ^ 2 + (a.y - b.y) ^ 2

/-- Integer square root, computed two bits at a time; the first argument bounds
the depth of the recursion. -/
def isqrt_fuel : Nat → Nat → Nat
  | 0, n => n
  | fuel + 1, n =>
    if n < 2 then n
    else
      let r := 2 * isqrt_fuel fuel (n / 4)
      if (r + 1) * (r + 1) ≤ n then r + 1 else r

/-- The `int` to which the square root of `q` converts, `(int) sqrt(q)`: the
largest integer whose square is at most `q`. -/
def trunc_sqrt (q : ℚ) : Nat := isqrt_fuel ⌊q⌋.toNat ⌊q⌋.toNat

/-- Embeds `cv::Mat::inv()` of a 4x4 matrix (LU method): the inverse, and the zero
matrix when the matrix is singular. -/
def cv_inv (A : Matrix (Fin 4) (Fin 4) ℚ) : Matrix (Fin 4) (Fin 4) ℚ :=
  if A.det = 0 then 0 else (A.det)⁻¹ • A.adjugate

/-- The matrix `A` of `win_cb`, with `a = x2 - x1`, `b = y2 - y1`. -/
def win_cb_A (a b : ℚ) : Matrix (Fin 4) (Fin 4) ℚ :=
  !![b, 0, 1, 0;
     a, 0, 0, -1;
     0, a, -1, 0;
     0, b, 0, -1]

/-- The right-hand side `B` of `win_cb`. -/
def win_cb_B (x2 y2 x y : ℚ) : Fin 4 → ℚ := ![x2, -y2, -x, -y]

/-- Embeds `AlphaBetaX3Y3 = A.inv() * B` of `win_cb` for the first two corners
`(x1, y1)`, `(x2, y2)` and the raw candidate `(x, y)`. -/
def AlphaBetaX3Y3 (x1 y1 x2 y2 x y : ℚ) : Fin 4 → ℚ :=
  (cv_inv (win_cb_A (x2 - x1) (y2 - y1))).mulVec (win_cb_B x2 y2 x y)

/-! ## The session -/

/-- The OpenCV operations that produce pixel content. -/
structure OpenCV where
  /-- The call `cv::imread(filename, CV_LOAD_IMAGE_COLOR)`: the decoded
  image, empty when decoding fails. -/
  imread : String → Mat
  /-- The call `cv::resize(src, dst, cv::Size(), fx, fy)`. -/
  resize : Mat → ℚ → ℚ → Mat
  /-- The calls `cv::getAffineTransform(src, dst)` and
  `cv::warpAffine(img, out, transform, out.size())` of `add_corner`, for the
  source triangle `src` and an output buffer created with the given rows and
  columns. -/
  warpAffine : Mat → Point2f → Point2f → Point2f → Nat → Nat → Mat

def WINDOW_WIDTH : Nat := 800
def WINDOW_HEIGHT : Nat := 600
def MARGIN_SIZE : Nat := 10
def ZOOM_WINDOW_SIZE : Nat := 200
def DEFAULT_ZOOM_LEVEL : ℚ := 50

/-- Modulus of `unsigned int`. -/
def UINT_MOD : Nat := 2 ^ 32

/-- Modulus of `size_t`. -/
def SIZE_MOD : Nat := 2 ^ 64

/-- The data members of `PostcardScanExtractor` that carry session state,
and `written`, the log of the calls `cv::imwrite(name, image)` in order. -/
structure Extractor where
  last_mouse_x : ℚ
  last_mouse_y : ℚ
  big2small_factor : ℚ
  zoom_level : ℚ
  scan_img_hires : Mat
  scan_img_lores : Mat
  postcard : Mat
  postcard_suffix : String
  gui_corners : List Point
  hires_corners : List Point2f
  postcard_idx : Nat
  playlist : List String
  playlist_idx : Nat
  written : List (String × Mat)

namespace Extractor

/-- Embeds `get_current_filename()`: `_playlist[_playlist_idx]`; the empty string
stands for the access out of range, which the source leaves undefined. -/
def get_current_filename (s : Extractor) : String :=
  s.playlist.getD s.playlist_idx ""

/-- Embeds `get_current_postcard_filename()`. -/
def get_current_postcard_filename (s : Extractor) : String :=
  remove_filename_extension s.get_current_filename
    ++ s.postcard_suffix ++ Nat.repr s.postcard_idx ++ ".png"

/-- Embeds `redraw_final_window()`: draws into the presentation buffers only. -/
def redraw_final_window (s : Extractor) : Extractor := s

/-- Embeds `recompute_zoom_and_redraw()`: recomputes the zoom view and redraws;
presentation buffers only. -/
def recompute_zoom_and_redraw (s : Extractor) : Extractor :=
  s.redraw_final_window

/-- Embeds `save_current_postcard()`: nothing for an empty postcard, else the
thumbnail is refreshed and the postcard is written under the current postcard
file name.  The `cv::resize` of the thumbnail is taken to return. -/
def save_current_postcard (s : Extractor) : Extractor :=
  if s.postcard.empty then s
  else
    let s1 := s.redraw_final_window -- refresh thumb
    { s1 with written := s1.written ++ [(s1.get_current_postcard_filename, s1.postcard)] }

/-- Embeds `set_image(scan_img_hires)`. -/
def set_image (cv : OpenCV) (s : Extractor) (scan_img_hires : Mat) : Bool × Extractor :=
  if scan_img_hires.empty then (false, s)
  else
    -- rotate 90° if needed
    let hires :=
      if scan_img_hires.cols < scan_img_hires.rows then flip (transpose scan_img_hires) 0
      else scan_img_hires
    -- resize
    let factor : ℚ := min ((WINDOW_WIDTH : ℚ) / hires.cols) ((WINDOW_HEIGHT : ℚ) / hires.rows)
    let lores := cv.resize hires factor factor
    -- clear data
    (true, recompute_zoom_and_redraw
      { s with
        scan_img_hires := hires
        big2small_factor := factor
        scan_img_lores := lores
        postcard_idx := 0
        gui_corners := []
        hires_corners := []
        postcard := Mat.released })

/-- The constructor `PostcardScanExtractor(postcard_suffix)`.  The members the
constructor leaves to `set_image` start at zero here. -/
def ctor (cv : OpenCV) (postcard_suffix : String) : Extractor :=
  let white : Mat := Mat.filled WINDOW_HEIGHT WINDOW_WIDTH (255, 255, 255)
  (set_image cv
    { last_mouse_x := 0
      last_mouse_y := 0
      big2small_factor := 0
      zoom_level := DEFAULT_ZOOM_LEVEL
      scan_img_hires := white
      scan_img_lores := Mat.released
      postcard := Mat.released
      postcard_suffix := postcard_suffix
      gui_corners := []
      hires_corners := []
      postcard_idx := 0
      playlist := []
      playlist_idx := 0
      written := [] } white).2

/-- Embeds `load_playlist_image(filename)`. -/
def load_playlist_image (cv : OpenCV) (s : Extractor) (filename : String) : Bool × Extractor :=
  let scan_img := cv.imread filename
  if scan_img.empty then (false, s)
  else set_image cv s scan_img

/-- Embeds `goto_playlist_image(playlist_idx)`; the test `playlist_idx < 0` of the
source is never true of an `unsigned int`. -/
def goto_playlist_image (cv : OpenCV) (s : Extractor) (playlist_idx : Nat) : Bool × Extractor :=
  if playlist_idx ≥ s.playlist.length then (false, s)
  else
    let s1 := { s with playlist_idx := playlist_idx }
    load_playlist_image cv s1 s1.get_current_filename

/-- The local `image_idx` of `goto_next_playlist_image()`:
`(_playlist_idx + 1) % _playlist.size()`, the sum in `unsigned int`, the
remainder in `size_t`, stored in an `unsigned int`. -/
def next_image_idx (s : Extractor) : Nat :=
  ((s.playlist_idx + 1) % UINT_MOD % s.playlist.length) % UINT_MOD

/-- The local `image_idx` of `goto_prev_playlist_image()`:
`(_playlist_idx + _playlist.size() - 1) % _playlist.size()`, computed in
`size_t`, stored in an `unsigned int`. -/
def prev_image_idx (s : Extractor) : Nat :=
  ((s.playlist_idx + s.playlist.length + (SIZE_MOD - 1)) % SIZE_MOD % s.playlist.length)
    % UINT_MOD

/-- Embeds `goto_next_playlist_image()`. -/
def goto_next_playlist_image (cv : OpenCV) (s : Extractor) : Bool × Extractor :=
  goto_playlist_image cv s s.next_image_idx

/-- Embeds `goto_prev_playlist_image()`. -/
def goto_prev_playlist_image (cv : OpenCV) (s : Extractor) : Bool × Extractor :=
  goto_playlist_image cv s s.prev_image_idx

/-- Embeds `load_playlist_images(playlist)`; `none` when the call ends in `quit()`. -/
def load_playlist_images (cv : OpenCV) (s : Extractor) (playlist : List String) :
    Option (Bool × Extractor) :=
  let contains_help := playlist.contains "--help" || playlist.contains "-h"
  if playlist.isEmpty || contains_help then none
  else some (goto_playlist_image cv { s with playlist := playlist } 0)

/-- Embeds `add_corner(x, y)`.  The postcard is created with `h` rows and `w`
columns, `w` and `h` being the lengths `|P0 P1|` and `|P1 P2|` converted to
`int`.  Hires corners and lengths are exact here; the source holds the corners
as `float` and the lengths as the `hypot` of their `float` differences. -/
def add_corner (cv : OpenCV) (s : Extractor) (x y : Int) : Extractor :=
  let s1 : Extractor :=
    if s.gui_corners.length ≥ 3 then -- clear corners if new postcard
      { s with
        gui_corners := []
        hires_corners := []
        postcard_idx := (s.postcard_idx + 1) % UINT_MOD }
    else s
  let s2 : Extractor :=
    { s1 with
      gui_corners := s1.gui_corners ++ [⟨x, y⟩]
      hires_corners := s1.hires_corners ++
        [⟨((x : ℚ) - MARGIN_SIZE) / s1.big2small_factor,
          ((y : ℚ) - MARGIN_SIZE) / s1.big2small_factor⟩] }
  if s2.gui_corners.length < 3 then -- do nothing if corners not over
    s2.redraw_final_window
  else
    let g (i : Nat) : Point := s2.gui_corners.getD i ⟨0, 0⟩
    let p (i : Nat) : Point2f := s2.hires_corners.getD i ⟨0, 0⟩
    -- add fourth corner
    let s3 : Extractor := { s2 with gui_corners := s2.gui_corners ++ [g 0 + g 2 - g 1] }
    -- compute postcard
    let w2 := dist_L2_sq (p 0) (p 1)
    let h2 := dist_L2_sq (p 1) (p 2)
    let s4 : Extractor :=
      { s3 with
        postcard := cv.warpAffine s3.scan_img_hires (p 0) (p 1) (p 2)
          (trunc_sqrt h2) (trunc_sqrt w2) }
    s4.save_current_postcard

def CV_EVENT_MOUSEMOVE : Int := 0
def CV_EVENT_LBUTTONDOWN : Int := 1
def CV_EVENT_RBUTTONDOWN : Int := 2

/-- The mouse callback `win_cb(event, x, y, flags, cookie)`; the projected point
is stored in the `int` parameters `x`, `y` before it reaches `_last_mouse_x`,
`_last_mouse_y`.  The projection is the exact solution here; the source
truncates the `double` result of `A.inv() * B`. -/
def win_cb (cv : OpenCV) (s : Extractor) (event x y : Int) : Extractor :=
  let s1 : Extractor :=
    if event = CV_EVENT_LBUTTONDOWN then -- do not move mouse if left click
      add_corner cv s (truncToInt s.last_mouse_x) (truncToInt s.last_mouse_y)
    else
      let xy : Int × Int :=
        if s.gui_corners.length = 2 then -- only allow perpendicular third point
          let c1 : Point := s.gui_corners.headD ⟨0, 0⟩
          let c2 : Point := s.gui_corners.getLastD ⟨0, 0⟩
          let sol := AlphaBetaX3Y3 c1.x c1.y c2.x c2.y x y
          (truncToInt (sol 2), truncToInt (sol 3))
        else (x, y)
      { s with last_mouse_x := xy.1, last_mouse_y := xy.2 }
  let s2 : Extractor :=
    if event = CV_EVENT_RBUTTONDOWN then -- clear on right button
      { s1 with gui_corners := [], hires_corners := [] }
    else s1
  s2.recompute_zoom_and_redraw

/-- One iteration of the loop of `run()` for the key `c` returned by
`cv::waitKey` (as a `char`); `none` when the iteration ends in `quit()`. -/
def run_key (cv : OpenCV) (s : Extractor) (c : Int) : Option Extractor :=
  if c = 112 ∨ c = 8 then -- 'p' | backspace
    some (goto_prev_playlist_image cv s).2
  else if c = 110 ∨ c = 32 then -- 'n' | ' '
    some (goto_next_playlist_image cv s).2
  else if c = 81 then -- left
    some ({ s with last_mouse_x := s.last_mouse_x - 1 / 2 }).recompute_zoom_and_redraw
  else if c = 83 then -- right
    some ({ s with last_mouse_x := s.last_mouse_x + 1 / 2 }).recompute_zoom_and_redraw
  else if c = 82 then -- up
    some ({ s with last_mouse_y := s.last_mouse_y - 1 / 2 }).recompute_zoom_and_redraw
  else if c = 84 then -- down
    some ({ s with last_mouse_y := s.last_mouse_y + 1 / 2 }).recompute_zoom_and_redraw
  else if c = 43 ∨ c = -85 then -- '+' | '+' keypad
    some ({ s with zoom_level := max (s.zoom_level - 1) 1 }).recompute_zoom_and_redraw
  else if c = 45 ∨ c = -83 then -- '-' | '-' keypad
    some ({ s with zoom_level := s.zoom_level + 1 }).recompute_zoom_and_redraw
  else if c = 10 ∨ c = -115 then -- return | keypad return
    some (add_corner cv s (truncToInt s.last_mouse_x) (truncToInt s.last_mouse_y))
  else if c = 114 ∧ !s.postcard.empty then -- 'r': rotate postcard 90°
    some ({ s with postcard := flip (transpose s.postcard) 0 }).save_current_postcard
  else if (c = 102 ∨ c = 118) ∧ !s.postcard.empty then -- 'f' | 'v': flip postcard, y axis
    some ({ s with postcard := flip s.postcard 1 }).save_current_postcard
  else if c = 104 ∧ !s.postcard.empty then -- 'h': flip postcard, x axis
    some ({ s with postcard := flip s.postcard 0 }).save_current_postcard
  else if c = 27 ∨ c = 113 then -- escape | 'q'
    none
  else some s

end Extractor

/-- What the session receives: a key read by `run()` or a call of the mouse
callback `win_cb`. -/
inductive Event where
  | key (c : Int)
  | mouse (event x y : Int)

open Extractor

/-- Dispatch of one event; `none` when the process exits. -/
def handle (cv : OpenCV) (s : Extractor) : Event → Option Extractor
  | Event.key c => run_key cv s c
  | Event.mouse event x y => some (win_cb cv s event x y)

/-- The session state after the events, in order; the events after a quit are
not processed. -/
def run_events (cv : OpenCV) (s : Extractor) : List Event → Extractor
  | [] => s
  | e :: es =>
    match handle cv s e with
    | none => s
    | some s1 => run_events cv s1 es

/-- Reference collaborators for concrete traces: every file decodes to a white
`600 x 800` image except the names in `unreadable`; `resize` and `warpAffine`
return white buffers of the size OpenCV gives them (`warpAffine` takes the size
of its source when the requested size has no pixel). -/
def refCV (unreadable : List String) : OpenCV where
  imread name :=
    if unreadable.contains name then Mat.released else Mat.filled 600 800 (255, 255, 255)
  resize src fx fy :=
    Mat.filled (round (fy * src.rows)).toNat (round (fx * src.cols)).toNat (255, 255, 255)
  warpAffine src _ _ _ rows cols :=
    if rows * cols = 0 then Mat.filled src.rows src.cols (255, 255, 255)
    else Mat.filled rows cols (255, 255, 255)

/-- The program `main` of `postcard_scan_extractor.cpp`: construct the
extractor, load the files named on the command line, run on the events. -/
def main (cv : OpenCV) (filenames : List String) (events : List Event) : Extractor :=
  let annot := ctor cv "_postcard"
  match load_playlist_images cv annot filenames with
  | none => annot
  | some r => run_events cv r.2 events

/-- The scalar product `(c3 - c2) . (c2 - c1)` of the first three corners of a
corner list; it is zero exactly when side `2-3` is perpendicular to side `1-2`. -/
def third_corner_dot (corners : List Point) : Int :=
  let c1 := corners.getD 0 ⟨0, 0⟩
  let c2 := corners.getD 1 ⟨0, 0⟩
  let c3 := corners.getD 2 ⟨0, 0⟩
  (c3.x - c2.x) * (c2.x - c1.x) + (c3.y - c2.y) * (c2.y - c1.y)

/-- The three left clicks that pick the corners `c1`, `c2`, `c3`: the pointer
moves to each corner, then the left button goes down there. -/
def click_rectangle (c1 c2 c3 : Point) : List Event :=
  [Event.mouse CV_EVENT_MOUSEMOVE c1.x c1.y, Event.mouse CV_EVENT_LBUTTONDOWN c1.x c1.y,
   Event.mouse CV_EVENT_MOUSEMOVE c2.x c2.y, Event.mouse CV_EVENT_LBUTTONDOWN c2.x c2.y,
   Event.mouse CV_EVENT_MOUSEMOVE c3.x c3.y, Event.mouse CV_EVENT_LBUTTONDOWN c3.x c3.y]

/-- The files written in a session: name, rows and columns of each image
passed to `cv::imwrite`, in order. -/
def written_files (s : Extractor) : List (String × Nat × Nat) :=
  s.written.map (fun w => (w.1, w.2.rows, w.2.cols))


/-- A session on `scan.jpg` in which the corners `(10, 10)` and `(110, 10)`
have been clicked. -/
def two_corners_picked : Extractor :=
  main (refCV []) ["scan.jpg"]
    [Event.mouse CV_EVENT_MOUSEMOVE 10 10, Event.mouse CV_EVENT_LBUTTONDOWN 10 10,
     Event.mouse CV_EVENT_MOUSEMOVE 110 10, Event.mouse CV_EVENT_LBUTTONDOWN 110 10]

/-- A session on the playlist `a.jpg`, `b.jpg` whose second file cannot be
decoded, with a rectangle completed on `a.jpg`. -/
def postcard_on_first_image : Extractor :=
  main (refCV ["b.jpg"]) ["a.jpg", "b.jpg"] (click_rectangle ⟨10, 10⟩ ⟨110, 10⟩ ⟨110, 60⟩)

/-- The state `t` has the Scan (hires and lores buffers, display factor), both
corner lists, the postcard and the postcard sequence index of the state `s`. -/
def same_scan_corners_postcard (s t : Extractor) : Prop :=
  t.scan_img_hires = s.scan_img_hires ∧ t.scan_img_lores = s.scan_img_lores ∧
  t.big2small_factor = s.big2small_factor ∧
  t.gui_corners = s.gui_corners ∧ t.hires_corners = s.hires_corners ∧
  t.postcard = s.postcard ∧ t.postcard_idx = s.postcard_idx

/-- The part of the session that only `load_playlist_images`, the navigation
and the zoom keys can change. -/
structure SameSetup (s t : Extractor) : Prop where
  zoom_level : t.zoom_level = s.zoom_level
  playlist : t.playlist = s.playlist
  playlist_idx : t.playlist_idx = s.playlist_idx
  postcard_suffix : t.postcard_suffix = s.postcard_suffix

/-- The integer nearest to the square root of `q`, halves going up: the size
"rounded to the nearest integer" of the specification, to compare with
`trunc_sqrt`. -/
def round_sqrt (q : ℚ) : Nat := (isqrt_fuel ⌊4 * q⌋.toNat ⌊4 * q⌋.toNat + 1) / 2

/-- The hires-space corner that `add_corner(x, y)` stores for the display point
`(x, y)`: `((1. * x - MARGIN_SIZE) / _big2small_factor, (1. * y - MARGIN_SIZE) /
_big2small_factor)`, as an exact quotient.  The source stores the `float`
nearest to it, which is the quotient itself when that is an integer of at most
24 bits. -/
def hires_of (s : Extractor) (x y : Int) : Point2f :=
  ⟨((x : ℚ) - MARGIN_SIZE) / s.big2small_factor, ((y : ℚ) - MARGIN_SIZE) / s.big2small_factor⟩

/-- A session on `scan.jpg` in which the left button went down twice at the
display point `(50, 50)`. -/
def same_corner_twice : Extractor :=
  main (refCV []) ["scan.jpg"]
    [Event.mouse CV_EVENT_MOUSEMOVE 50 50, Event.mouse CV_EVENT_LBUTTONDOWN 50 50,
     Event.mouse CV_EVENT_LBUTTONDOWN 50 50]

/-! ## Lemmas on `remove_filename_extension` -/

theorem find_last_of_none {s : List Char} {c : Char} :
    find_last_of s c = none ↔ c ∉ s := by
  induction s with
  | nil => simp [find_last_of]
  | cons x xs ih =>
    simp only [find_last_of]
    cases h : find_last_of xs c with
    | some i =>
      have : ¬ c ∉ xs := fun hc => by rw [ih.mpr hc] at h; cases h
      simp only [not_not] at this
      simp [this]
    | none =>
      have hc := ih.mp h
      by_cases hx : x = c
      · simp [hx]
      · simp [hx, hc, Ne.symm hx]

theorem find_last_of_some {s : List Char} {c : Char} {i : Nat}
    (h : find_last_of s c = some i) :
    ∃ pre post, s = pre ++ c :: post ∧ c ∉ post ∧ pre.length = i ∧ s.take i = pre := by
  induction s generalizing i with
  | nil => simp [find_last_of] at h
  | cons x xs ih =>
    simp only [find_last_of] at h
    cases hx : find_last_of xs c with
    | some j =>
      rw [hx] at h
      simp only [Option.some.injEq] at h
      obtain ⟨pre, post, h1, h2, h3, h4⟩ := ih hx
      refine ⟨x :: pre, post, by simp [h1], h2, by simp [h3, ← h], ?_⟩
      rw [← h]; simp [h4]
    | none =>
      rw [hx] at h
      by_cases hxc : x = c
      · simp only [hxc, if_true, Option.some.injEq] at h
        refine ⟨[], xs, by simp [hxc], find_last_of_none.mp hx, by simp [← h], by simp [← h]⟩
      · simp [hxc] at h

theorem takeWhile_bne_append {c : Char} (l r : List Char) (h : c ∉ l) :
    (l ++ c :: r).takeWhile (fun d => d != c) = l := by
  induction l with
  | nil => simp
  | cons x xs ih =>
    simp only [List.mem_cons, not_or] at h
    have hx : (x != c) = true := by simp [Ne.symm h.1]
    simp [List.takeWhile, hx, ih h.2]

theorem takeWhile_bne_all {c : Char} (l : List Char) (h : c ∉ l) :
    l.takeWhile (fun d => d != c) = l := by
  induction l with
  | nil => simp
  | cons x xs ih =>
    simp only [List.mem_cons, not_or] at h
    have hx : (x != c) = true := by simp [Ne.symm h.1]
    simp [List.takeWhile, hx, ih h.2]

theorem final_component_append (pre post : List Char) (h : '/' ∉ post) :
    final_component (pre ++ '/' :: post) = post := by
  unfold final_component
  have : (pre ++ '/' :: post).reverse = post.reverse ++ '/' :: pre.reverse := by simp
  rw [this, takeWhile_bne_append _ _ (by simpa using h)]
  simp

theorem final_component_no_slash (path : List Char) (h : '/' ∉ path) :
    final_component path = path := by
  unfold final_component
  rw [takeWhile_bne_all _ (by simpa using h)]
  simp

theorem final_component_subset (path : List Char) : final_component path ⊆ path := by
  intro c hc
  unfold final_component at hc
  rw [List.mem_reverse] at hc
  exact List.mem_reverse.mp ((List.takeWhile_sublist _).subset hc)

/-- Two splittings of one path, at a `'.'` and at a `'/'`: one of the two
characters comes first, and the other lies in the rest. -/
theorem dot_slash_order {p1 q1 p2 q2 : List Char}
    (h : p1 ++ '.' :: q1 = p2 ++ '/' :: q2) :
    (p2.length > p1.length ∧ ∃ m, q1 = m ++ '/' :: q2) ∨
    (p2.length < p1.length ∧ ∃ m, q2 = m ++ '.' :: q1) := by
  rcases List.append_eq_append_iff.mp h with ⟨a, ha, hb⟩ | ⟨a, ha, hb⟩
  · cases a with
    | nil => simp at hb
    | cons d a =>
      simp only [List.cons_append, List.cons.injEq] at hb
      exact Or.inl ⟨by simp [ha], a, hb.2⟩
  · cases a with
    | nil => simp at hb
    | cons d a =>
      simp only [List.cons_append, List.cons.injEq] at hb
      exact Or.inr ⟨by simp [ha], a, hb.2⟩

theorem remove_filename_extension_chars_spec (path : List Char) :
    ('.' ∉ final_component path → remove_filename_extension_chars path = path) ∧
    ('.' ∈ final_component path →
      ∃ tail, path = remove_filename_extension_chars path ++ '.' :: tail ∧
        '/' ∉ tail ∧ '.' ∉ tail) := by
  unfold remove_filename_extension_chars
  cases hd : find_last_of path '.' with
  | none =>
    exact ⟨fun _ => rfl,
      fun hin => absurd (final_component_subset path hin) (find_last_of_none.mp hd)⟩
  | some d =>
    obtain ⟨p1, q1, e1, n1, l1, t1⟩ := find_last_of_some hd
    cases hs : find_last_of path '/' with
    | none =>
      have hno := find_last_of_none.mp hs
      rw [final_component_no_slash _ hno]
      simp only []
      constructor
      · intro h; exact absurd (by rw [e1]; simp) h
      · intro _
        exact ⟨q1, by rw [t1]; exact e1, fun h => hno (by rw [e1]; simp [h]), n1⟩
    | some sl =>
      obtain ⟨p2, q2, e2, n2, l2, t2⟩ := find_last_of_some hs
      have hfc : final_component path = q2 := by rw [e2]; exact final_component_append _ _ n2
      rw [hfc]
      simp only []
      have hord := dot_slash_order (e1.symm.trans e2)
      constructor
      · intro hq
        rcases hord with ⟨hlt, _⟩ | ⟨_, m, hm⟩
        · rw [if_pos (by omega)]
        · exact absurd (by rw [hm]; simp) hq
      · intro hq
        rcases hord with ⟨_, m, hm⟩ | ⟨hlt, m, hm⟩
        · exact absurd (by rw [hm]; simp [hq]) n1
        · rw [if_neg (by omega), t1]
          exact ⟨q1, e1, fun h => n2 (by rw [hm]; simp [h]), n1⟩

/-! ## Lemmas on the linear system of `win_cb` -/

theorem win_cb_A_det (a b : ℚ) : (win_cb_A a b).det = -(a ^ 2 + b ^ 2) := by
  simp [win_cb_A, Matrix.det_succ_row_zero, Fin.sum_univ_succ, Fin.succAbove]
  ring

theorem sq_add_sq_ne_zero {a b : ℚ} (h : ¬ (a = 0 ∧ b = 0)) : a ^ 2 + b ^ 2 ≠ 0 := by
  intro h0
  have ha : a ^ 2 = 0 := by nlinarith [sq_nonneg a, sq_nonneg b]
  have hb : b ^ 2 = 0 := by nlinarith [sq_nonneg a, sq_nonneg b]
  exact h ⟨by simpa using ha, by simpa using hb⟩

theorem cv_inv_mul {A : Matrix (Fin 4) (Fin 4) ℚ} (h : A.det ≠ 0) : cv_inv A * A = 1 := by
  unfold cv_inv
  rw [if_neg h, Matrix.smul_mul, Matrix.adjugate_mul, smul_smul, inv_mul_cancel₀ h, one_smul]

theorem mul_cv_inv {A : Matrix (Fin 4) (Fin 4) ℚ} (h : A.det ≠ 0) : A * cv_inv A = 1 := by
  unfold cv_inv
  rw [if_neg h, Matrix.mul_smul, Matrix.mul_adjugate, smul_smul, inv_mul_cancel₀ h, one_smul]

/-- A regular system has the solution `A.inv() * B`, and no other. -/
theorem cv_inv_solves {A : Matrix (Fin 4) (Fin 4) ℚ} (h : A.det ≠ 0) (B u : Fin 4 → ℚ) :
    A.mulVec u = B ↔ u = (cv_inv A).mulVec B := by
  constructor
  · intro hu
    rw [← hu, Matrix.mulVec_mulVec, cv_inv_mul h, Matrix.one_mulVec]
  · intro hu
    rw [hu, Matrix.mulVec_mulVec, mul_cv_inv h, Matrix.one_mulVec]

/-- The four scalar equations of the system of `win_cb`. -/
theorem win_cb_rows (a b x2 y2 x y : ℚ) (u : Fin 4 → ℚ) :
    (win_cb_A a b).mulVec u = win_cb_B x2 y2 x y ↔
      (b * u 0 + u 2 = x2 ∧ a * u 0 - u 3 = -y2 ∧ a * u 1 - u 2 = -x ∧ b * u 1 - u 3 = -y) := by
  constructor
  · intro h
    have h0 := congrFun h 0
    have h1 := congrFun h 1
    have h2 := congrFun h 2
    have h3 := congrFun h 3
    simp [win_cb_A, win_cb_B, Matrix.mulVec, Matrix.dotProduct, Fin.sum_univ_four] at h0 h1 h2 h3
    refine ⟨h0, ?_, ?_, ?_⟩ <;> linarith
  · rintro ⟨h0, h1, h2, h3⟩
    funext i
    fin_cases i <;>
      simp [win_cb_A, win_cb_B, Matrix.mulVec, Matrix.dotProduct, Fin.sum_univ_four] <;> linarith

theorem win_cb_A_regular {x1 y1 x2 y2 : ℚ} (h : (x1, y1) ≠ (x2, y2)) :
    (win_cb_A (x2 - x1) (y2 - y1)).det ≠ 0 := by
  rw [win_cb_A_det]
  refine neg_ne_zero.mpr (sq_add_sq_ne_zero ?_)
  rintro ⟨ha, hb⟩
  exact h (by rw [sub_eq_zero.mp ha, sub_eq_zero.mp hb])


/-! ## Frame lemmas: what each operation leaves unchanged -/

theorem sameSetup_refl (s : Extractor) : SameSetup s s := ⟨rfl, rfl, rfl, rfl⟩

theorem save_current_postcard_eq (s : Extractor) :
    s.save_current_postcard =
      { s with written := s.written ++
          if s.postcard.empty then [] else [(s.get_current_postcard_filename, s.postcard)] } := by
  unfold save_current_postcard redraw_final_window
  split <;> simp

theorem save_current_postcard_setup (s : Extractor) : SameSetup s s.save_current_postcard := by
  rw [save_current_postcard_eq]; exact ⟨rfl, rfl, rfl, rfl⟩

theorem add_corner_setup (cv : OpenCV) (s : Extractor) (x y : Int) :
    SameSetup s (add_corner cv s x y) := by
  unfold add_corner
  simp only [redraw_final_window, save_current_postcard_eq]
  split_ifs <;> exact ⟨rfl, rfl, rfl, rfl⟩

/-- A call of `win_cb` that is not a left click moves the pointer and may clear
the corners; nothing else changes. -/
theorem win_cb_no_click (cv : OpenCV) (s : Extractor) (event x y : Int)
    (h : event ≠ CV_EVENT_LBUTTONDOWN) :
    ∃ mx my gc hc, win_cb cv s event x y =
      { s with last_mouse_x := mx, last_mouse_y := my, gui_corners := gc, hires_corners := hc } := by
  unfold win_cb
  simp only [recompute_zoom_and_redraw, redraw_final_window, if_neg h]
  split_ifs <;> exact ⟨_, _, _, _, rfl⟩

/-- A left click is a call of `add_corner` at the pointer. -/
theorem win_cb_click (cv : OpenCV) (s : Extractor) (x y : Int) :
    win_cb cv s CV_EVENT_LBUTTONDOWN x y =
      add_corner cv s (truncToInt s.last_mouse_x) (truncToInt s.last_mouse_y) := by
  simp [win_cb, recompute_zoom_and_redraw, redraw_final_window, CV_EVENT_LBUTTONDOWN,
    CV_EVENT_RBUTTONDOWN]

theorem win_cb_setup (cv : OpenCV) (s : Extractor) (event x y : Int) :
    SameSetup s (win_cb cv s event x y) := by
  by_cases h : event = CV_EVENT_LBUTTONDOWN
  · subst h; rw [win_cb_click]; exact add_corner_setup cv s _ _
  · obtain ⟨mx, my, gc, hc, e⟩ := win_cb_no_click cv s event x y h
    rw [e]; exact ⟨rfl, rfl, rfl, rfl⟩

theorem set_image_setup (cv : OpenCV) (s : Extractor) (img : Mat) :
    SameSetup s (set_image cv s img).2 := by
  unfold set_image
  simp only [recompute_zoom_and_redraw, redraw_final_window]
  split_ifs <;> exact ⟨rfl, rfl, rfl, rfl⟩

/-- The call `goto_playlist_image` keeps the zoom level and the playlist; the playlist
index becomes the requested index when that is a slot of the playlist. -/
theorem goto_playlist_image_frame (cv : OpenCV) (s : Extractor) (idx : Nat) :
    (goto_playlist_image cv s idx).2.zoom_level = s.zoom_level ∧
    (goto_playlist_image cv s idx).2.playlist = s.playlist ∧
    (goto_playlist_image cv s idx).2.playlist_idx
      = if idx < s.playlist.length then idx else s.playlist_idx := by
  unfold goto_playlist_image load_playlist_image
  by_cases h : idx < s.playlist.length
  · simp only [ge_iff_le, not_le.mpr h, if_false, if_pos h]
    split_ifs
    · exact ⟨rfl, rfl, rfl⟩
    · have hs := set_image_setup cv { s with playlist_idx := idx }
        (cv.imread (get_current_filename { s with playlist_idx := idx }))
      exact ⟨hs.zoom_level, hs.playlist, hs.playlist_idx⟩
  · simp [not_lt.mp h, if_neg h]

theorem AlphaBetaX3Y3_rows {x1 y1 x2 y2 : ℚ} (h : (x1, y1) ≠ (x2, y2)) (x y : ℚ) :
    (y2 - y1) * AlphaBetaX3Y3 x1 y1 x2 y2 x y 0 + AlphaBetaX3Y3 x1 y1 x2 y2 x y 2 = x2 ∧
    (x2 - x1) * AlphaBetaX3Y3 x1 y1 x2 y2 x y 0 - AlphaBetaX3Y3 x1 y1 x2 y2 x y 3 = -y2 ∧
    (x2 - x1) * AlphaBetaX3Y3 x1 y1 x2 y2 x y 1 - AlphaBetaX3Y3 x1 y1 x2 y2 x y 2 = -x ∧
    (y2 - y1) * AlphaBetaX3Y3 x1 y1 x2 y2 x y 1 - AlphaBetaX3Y3 x1 y1 x2 y2 x y 3 = -y :=
  (win_cb_rows _ _ _ _ _ _ _).mp
    ((cv_inv_solves (win_cb_A_regular h) (win_cb_B x2 y2 x y) _).mpr rfl)

/-! ## The integer square root -/

theorem isqrt_fuel_spec (fuel n : Nat) (h : n ≤ fuel) :
    isqrt_fuel fuel n * isqrt_fuel fuel n ≤ n ∧
      n < (isqrt_fuel fuel n + 1) * (isqrt_fuel fuel n + 1) := by
  induction fuel generalizing n with
  | zero =>
    have : n = 0 := by omega
    subst this
    simp [isqrt_fuel]
  | succ k ih =>
    unfold isqrt_fuel
    by_cases h2 : n < 2
    · rw [if_pos h2]
      have : n = 0 ∨ n = 1 := by omega
      rcases this with rfl | rfl <;> simp
    · rw [if_neg h2]
      obtain ⟨h3, h4⟩ := ih (n / 4) (by omega)
      generalize isqrt_fuel k (n / 4) = r at h3 h4
      have h5 : 4 * (n / 4) ≤ n := Nat.mul_div_le n 4
      have h6 : n < 4 * (n / 4) + 4 := by omega
      simp only []
      split_ifs with h7
      · refine ⟨h7, ?_⟩
        nlinarith
      · refine ⟨?_, by omega⟩
        nlinarith

/-- The root `trunc_sqrt` computes is the integer square root of the integer
part. -/
theorem trunc_sqrt_eq (q : ℚ) : trunc_sqrt q = Nat.sqrt ⌊q⌋.toNat := by
  unfold trunc_sqrt
  obtain ⟨h1, h2⟩ := isqrt_fuel_spec ⌊q⌋.toNat ⌊q⌋.toNat le_rfl
  exact (Nat.eq_sqrt.mpr ⟨h1, h2⟩)

/-! ## Pixel buffers under `transpose` and `flip` -/

theorem flip_zero_flip_zero (m : Mat) : flip (flip m 0) 0 = m := by
  cases m
  simp only [flip, Fin.rev_rev]

theorem flip_one_flip_one (m : Mat) : flip (flip m 1) 1 = m := by
  cases m
  show flip (flip _ (Int.ofNat (0 + 1))) (Int.ofNat (0 + 1)) = _
  simp only [flip, Fin.rev_rev]

/-- One quarter turn: `cv::transpose` into the buffer, then `cv::flip` with
code `0` back into the postcard. -/
theorem quarter_turn_px (m : Mat) :
    flip (transpose m) 0 = ⟨m.cols, m.rows, fun i j => m.px j i.rev⟩ := rfl

theorem four_quarter_turns (m : Mat) :
    flip (transpose (flip (transpose (flip (transpose (flip (transpose m) 0)) 0)) 0)) 0 = m := by
  cases m
  simp only [flip, transpose, Fin.rev_rev]

theorem quarter_turn_empty (m : Mat) : (flip (transpose m) 0).empty = m.empty := by
  simp [Mat.empty, flip, transpose, Nat.mul_comm]

theorem flip_zero_empty (m : Mat) : (flip m 0).empty = m.empty := rfl

theorem flip_one_empty (m : Mat) : (flip m 1).empty = m.empty := rfl

/-! ## The rotate and flip keys -/

theorem run_key_rotate (cv : OpenCV) (s : Extractor) (h : s.postcard.empty = false) :
    run_key cv s 114 =
      some ({ s with postcard := flip (transpose s.postcard) 0 }).save_current_postcard := by
  simp [run_key, h]

theorem run_key_flip_f (cv : OpenCV) (s : Extractor) (h : s.postcard.empty = false) :
    run_key cv s 102 = some ({ s with postcard := flip s.postcard 1 }).save_current_postcard := by
  simp [run_key, h]

theorem run_key_flip_v (cv : OpenCV) (s : Extractor) (h : s.postcard.empty = false) :
    run_key cv s 118 = some ({ s with postcard := flip s.postcard 1 }).save_current_postcard := by
  simp [run_key, h]

theorem run_key_flip_h (cv : OpenCV) (s : Extractor) (h : s.postcard.empty = false) :
    run_key cv s 104 = some ({ s with postcard := flip s.postcard 0 }).save_current_postcard := by
  simp [run_key, h]

theorem save_current_postcard_postcard (s : Extractor) :
    s.save_current_postcard.postcard = s.postcard := by
  rw [save_current_postcard_eq]


/-! ## Invariants of the event loop -/

/-- The branches of the key dispatch of `run()`. -/
theorem run_key_cases (cv : OpenCV) (s : Extractor) (c : Int) :
    ((c = 112 ∨ c = 8) ∧ run_key cv s c = some (goto_prev_playlist_image cv s).2) ∨
    ((c = 110 ∨ c = 32) ∧ run_key cv s c = some (goto_next_playlist_image cv s).2) ∨
    ((c = 10 ∨ c = -115) ∧ run_key cv s c =
      some (add_corner cv s (truncToInt s.last_mouse_x) (truncToInt s.last_mouse_y))) ∨
    (∃ mx my z, (z = s.zoom_level ∨ z = max (s.zoom_level - 1) 1 ∨ z = s.zoom_level + 1) ∧
      run_key cv s c = some { s with last_mouse_x := mx, last_mouse_y := my, zoom_level := z }) ∨
    (∃ m, s.postcard.empty = false ∧ m.empty = false ∧
      run_key cv s c = some ({ s with postcard := m }).save_current_postcard) ∨
    run_key cv s c = none := by
  unfold run_key
  by_cases h1 : c = 112 ∨ c = 8
  · rw [if_pos h1]; exact Or.inl ⟨h1, rfl⟩
  rw [if_neg h1]
  by_cases h2 : c = 110 ∨ c = 32
  · rw [if_pos h2]; exact Or.inr (Or.inl ⟨h2, rfl⟩)
  rw [if_neg h2]
  by_cases h3 : c = 81
  · rw [if_pos h3]; exact Or.inr (Or.inr (Or.inr (Or.inl ⟨_, _, _, Or.inl rfl, rfl⟩)))
  rw [if_neg h3]
  by_cases h4 : c = 83
  · rw [if_pos h4]; exact Or.inr (Or.inr (Or.inr (Or.inl ⟨_, _, _, Or.inl rfl, rfl⟩)))
  rw [if_neg h4]
  by_cases h5 : c = 82
  · rw [if_pos h5]; exact Or.inr (Or.inr (Or.inr (Or.inl ⟨_, _, _, Or.inl rfl, rfl⟩)))
  rw [if_neg h5]
  by_cases h6 : c = 84
  · rw [if_pos h6]; exact Or.inr (Or.inr (Or.inr (Or.inl ⟨_, _, _, Or.inl rfl, rfl⟩)))
  rw [if_neg h6]
  by_cases h7 : c = 43 ∨ c = -85
  · rw [if_pos h7]
    exact Or.inr (Or.inr (Or.inr (Or.inl ⟨_, _, _, Or.inr (Or.inl rfl), rfl⟩)))
  rw [if_neg h7]
  by_cases h8 : c = 45 ∨ c = -83
  · rw [if_pos h8]
    exact Or.inr (Or.inr (Or.inr (Or.inl ⟨_, _, _, Or.inr (Or.inr rfl), rfl⟩)))
  rw [if_neg h8]
  by_cases h9 : c = 10 ∨ c = -115
  · rw [if_pos h9]; exact Or.inr (Or.inr (Or.inl ⟨h9, rfl⟩))
  rw [if_neg h9]
  by_cases h10 : c = 114 ∧ (!s.postcard.empty) = true
  · rw [if_pos h10]
    have he : s.postcard.empty = false := by simpa using h10.2
    exact Or.inr (Or.inr (Or.inr (Or.inr (Or.inl
      ⟨flip (transpose s.postcard) 0, he, by rw [quarter_turn_empty]; exact he, rfl⟩))))
  rw [if_neg h10]
  by_cases h11 : (c = 102 ∨ c = 118) ∧ (!s.postcard.empty) = true
  · rw [if_pos h11]
    have he : s.postcard.empty = false := by simpa using h11.2
    exact Or.inr (Or.inr (Or.inr (Or.inr (Or.inl ⟨flip s.postcard 1, he, he, rfl⟩))))
  rw [if_neg h11]
  by_cases h12 : c = 104 ∧ (!s.postcard.empty) = true
  · rw [if_pos h12]
    have he : s.postcard.empty = false := by simpa using h12.2
    exact Or.inr (Or.inr (Or.inr (Or.inr (Or.inl ⟨flip s.postcard 0, he, he, rfl⟩))))
  rw [if_neg h12]
  by_cases h13 : c = 27 ∨ c = 113
  · rw [if_pos h13]; exact Or.inr (Or.inr (Or.inr (Or.inr (Or.inr rfl))))
  rw [if_neg h13]
  exact Or.inr (Or.inr (Or.inr (Or.inl ⟨s.last_mouse_x, s.last_mouse_y, s.zoom_level, Or.inl rfl, rfl⟩)))



/-- What every key keeps: the playlist, the validity of the playlist index and
the floor of the zoom level. -/
theorem run_key_inv (cv : OpenCV) (s t : Extractor) (c : Int) (h : run_key cv s c = some t) :
    t.playlist = s.playlist ∧
    (s.playlist_idx < s.playlist.length → t.playlist_idx < s.playlist.length) ∧
    (1 ≤ s.zoom_level → 1 ≤ t.zoom_level) := by
  have hgoto : ∀ idx, (goto_playlist_image cv s idx).2.playlist = s.playlist ∧
      (s.playlist_idx < s.playlist.length →
        (goto_playlist_image cv s idx).2.playlist_idx < s.playlist.length) ∧
      (1 ≤ s.zoom_level → 1 ≤ (goto_playlist_image cv s idx).2.zoom_level) := by
    intro idx
    obtain ⟨hz, hp, hi⟩ := goto_playlist_image_frame cv s idx
    refine ⟨hp, fun hlt => ?_, fun h1 => by rw [hz]; exact h1⟩
    rw [hi]; split_ifs with hidx
    · exact hidx
    · exact hlt
  have hsetup : ∀ u : Extractor, SameSetup s u → u.playlist = s.playlist ∧
      (s.playlist_idx < s.playlist.length → u.playlist_idx < s.playlist.length) ∧
      (1 ≤ s.zoom_level → 1 ≤ u.zoom_level) := by
    intro u hu
    exact ⟨hu.playlist, fun hlt => by rw [hu.playlist_idx]; exact hlt,
      fun h1 => by rw [hu.zoom_level]; exact h1⟩
  rcases run_key_cases cv s c with ⟨_, e⟩ | ⟨_, e⟩ | ⟨_, e⟩ | ⟨mx, my, z, hz, e⟩ | ⟨m, _, _, e⟩ | e
  · rw [e] at h; simp only [Option.some.injEq] at h; subst h
    exact hgoto _
  · rw [e] at h; simp only [Option.some.injEq] at h; subst h
    exact hgoto _
  · rw [e] at h; simp only [Option.some.injEq] at h; subst h
    exact hsetup _ (add_corner_setup cv s _ _)
  · rw [e] at h; simp only [Option.some.injEq] at h; subst h
    refine ⟨rfl, fun hlt => hlt, fun h1 => ?_⟩
    show (1 : ℚ) ≤ z
    rcases hz with rfl | rfl | rfl
    · exact h1
    · exact le_max_right _ _
    · linarith
  · rw [e] at h; simp only [Option.some.injEq] at h; subst h
    have hs := save_current_postcard_setup { s with postcard := m }
    exact hsetup _ ⟨hs.zoom_level, hs.playlist, hs.playlist_idx, hs.postcard_suffix⟩
  · rw [e] at h; cases h

theorem handle_inv (cv : OpenCV) (s t : Extractor) (e : Event) (h : handle cv s e = some t) :
    t.playlist = s.playlist ∧
    (s.playlist_idx < s.playlist.length → t.playlist_idx < s.playlist.length) ∧
    (1 ≤ s.zoom_level → 1 ≤ t.zoom_level) := by
  cases e with
  | key c => exact run_key_inv cv s t c h
  | mouse event x y =>
    simp only [handle, Option.some.injEq] at h
    subst h
    have hu := win_cb_setup cv s event x y
    exact ⟨hu.playlist, fun hlt => by rw [hu.playlist_idx]; exact hlt,
      fun h1 => by rw [hu.zoom_level]; exact h1⟩

theorem run_events_inv (cv : OpenCV) (es : List Event) (s : Extractor) :
    (run_events cv s es).playlist = s.playlist ∧
    (s.playlist_idx < s.playlist.length →
      (run_events cv s es).playlist_idx < s.playlist.length) ∧
    (1 ≤ s.zoom_level → 1 ≤ (run_events cv s es).zoom_level) := by
  induction es generalizing s with
  | nil => exact ⟨rfl, fun h => h, fun h => h⟩
  | cons e es ih =>
    unfold run_events
    cases he : handle cv s e with
    | none => exact ⟨rfl, fun h => h, fun h => h⟩
    | some t =>
      obtain ⟨h1, h2, h3⟩ := handle_inv cv s t e he
      obtain ⟨k1, k2, k3⟩ := ih t
      simp only []
      refine ⟨k1.trans h1, fun hlt => ?_, fun hz => k3 (h3 hz)⟩
      have := k2 (by rw [h1]; exact h2 hlt)
      rwa [h1] at this

theorem ctor_zoom_level (cv : OpenCV) (postcard_suffix : String) :
    (ctor cv postcard_suffix).zoom_level = DEFAULT_ZOOM_LEVEL := by
  unfold ctor
  exact (set_image_setup cv _ _).zoom_level

/-- The commit of a third corner: the corner and the fourth corner are
appended, the postcard is warped and saved. -/
theorem add_corner_third (cv : OpenCV) (s : Extractor) (x y : Int)
    (h2 : s.gui_corners.length = 2) :
    ∃ hc pc, add_corner cv s x y =
      ({ s with
        gui_corners := s.gui_corners ++ [Point.mk x y] ++
          [(s.gui_corners ++ [Point.mk x y]).getD 0 (Point.mk 0 0)
            + (s.gui_corners ++ [Point.mk x y]).getD 2 (Point.mk 0 0)
            - (s.gui_corners ++ [Point.mk x y]).getD 1 (Point.mk 0 0)]
        hires_corners := hc
        postcard := pc }).save_current_postcard := by
  have hc1 : ¬ s.gui_corners.length ≥ 3 := by omega
  have hc2 : ¬ (s.gui_corners ++ [Point.mk x y]).length < 3 := by
    simp [h2]
  unfold add_corner
  simp only []
  rw [if_neg hc1, if_neg hc2]
  exact ⟨_, _, rfl⟩

theorem load_playlist_images_zoom_level (cv : OpenCV) (s : Extractor) (playlist : List String)
    (r : Bool × Extractor) (h : load_playlist_images cv s playlist = some r) :
    r.2.zoom_level = s.zoom_level := by
  unfold load_playlist_images at h
  simp only [] at h
  split_ifs at h
  simp only [Option.some.injEq] at h
  rw [← h]
  exact (goto_playlist_image_frame cv _ 0).1

/-! ## The size of the postcard -/

/-- The root `trunc_sqrt` computes is the integer part of the square root. -/
theorem trunc_sqrt_spec (q : ℚ) (hq : 0 ≤ q) :
    ((trunc_sqrt q : ℕ) : ℚ) ^ 2 ≤ q ∧ q < (((trunc_sqrt q : ℕ) : ℚ) + 1) ^ 2 := by
  unfold trunc_sqrt
  obtain ⟨h1, h2⟩ := isqrt_fuel_spec ⌊q⌋.toNat ⌊q⌋.toNat le_rfl
  generalize isqrt_fuel ⌊q⌋.toNat ⌊q⌋.toNat = r at h1 h2
  have hfl : (0 : ℤ) ≤ ⌊q⌋ := Int.floor_nonneg.mpr hq
  have hn : ((⌊q⌋.toNat : ℕ) : ℚ) = ((⌊q⌋ : ℤ) : ℚ) := by
    have : ((⌊q⌋.toNat : ℕ) : ℤ) = ⌊q⌋ := Int.toNat_of_nonneg hfl
    exact_mod_cast this
  have h1q : ((r * r : ℕ) : ℚ) ≤ ((⌊q⌋.toNat : ℕ) : ℚ) := by exact_mod_cast h1
  have h2q : (((⌊q⌋.toNat : ℕ) : ℚ)) + 1 ≤ (((r + 1) * (r + 1) : ℕ) : ℚ) := by
    exact_mod_cast h2
  have hle : ((⌊q⌋ : ℤ) : ℚ) ≤ q := Int.floor_le q
  have hlt : q < ((⌊q⌋ : ℤ) : ℚ) + 1 := Int.lt_floor_add_one q
  push_cast at h1q h2q
  constructor
  · nlinarith
  · nlinarith

/-- The size comes out as `0` exactly for a length below one pixel. -/
theorem trunc_sqrt_eq_zero (q : ℚ) : trunc_sqrt q = 0 ↔ q < 1 := by
  rw [trunc_sqrt_eq, Nat.sqrt_eq_zero, Int.toNat_eq_zero]
  constructor
  · intro h
    have : ⌊q⌋ < 1 := by omega
    exact Int.floor_lt.mp this |>.trans_le (by norm_num)
  · intro h
    have : ⌊q⌋ < 1 := Int.floor_lt.mpr (by exact_mod_cast h)
    omega

/-- The integer `round_sqrt` computes is within one half of the square root. -/
theorem round_sqrt_spec (q : ℚ) (hq : 0 ≤ q) :
    (round_sqrt q = 0 ∨ (2 * ((round_sqrt q : ℕ) : ℚ) - 1) ^ 2 ≤ 4 * q) ∧
      4 * q < (2 * ((round_sqrt q : ℕ) : ℚ) + 1) ^ 2 := by
  have h4 : 0 ≤ 4 * q := by linarith
  obtain ⟨h1, h2⟩ := trunc_sqrt_spec (4 * q) h4
  unfold trunc_sqrt at h1 h2
  unfold round_sqrt
  generalize isqrt_fuel ⌊4 * q⌋.toNat ⌊4 * q⌋.toNat = r at h1 h2
  rcases Nat.even_or_odd' r with ⟨m, rfl | rfl⟩
  · have hm : (2 * m + 1) / 2 = m := by omega
    rw [hm]
    push_cast at h1 h2
    refine ⟨?_, h2⟩
    rcases Nat.eq_zero_or_pos m with h0 | hpos
    · exact Or.inl h0
    · right
      have : (1 : ℚ) ≤ m := by exact_mod_cast hpos
      nlinarith
  · have hm : (2 * m + 1 + 1) / 2 = m + 1 := by omega
    rw [hm]
    push_cast at h1 h2 ⊢
    refine ⟨Or.inr ?_, ?_⟩
    · have : (2 * ((m : ℚ) + 1) - 1) = 2 * m + 1 := by ring
      rw [this]; exact h1
    · have hm0 : (0 : ℚ) ≤ m := Nat.cast_nonneg m
      nlinarith

/-- The commit of a third corner, with the hires corners in step with the
display corners: the warp runs on a buffer created with `(int) h` rows and
`(int) w` columns, and its result is saved. -/
theorem add_corner_third_postcard (cv : OpenCV) (s : Extractor) (x y : Int) (P0 P1 : Point2f)
    (h2 : s.gui_corners.length = 2) (hh : s.hires_corners = [P0, P1]) :
    ∃ gc, gc.length = 4 ∧ add_corner cv s x y =
      ({ s with
        gui_corners := gc
        hires_corners := [P0, P1, hires_of s x y]
        postcard := cv.warpAffine s.scan_img_hires P0 P1 (hires_of s x y)
          (trunc_sqrt (dist_L2_sq P1 (hires_of s x y)))
          (trunc_sqrt (dist_L2_sq P0 P1)) }).save_current_postcard := by
  have hc1 : ¬ s.gui_corners.length ≥ 3 := by omega
  have hc2 : ¬ (s.gui_corners ++ [Point.mk x y]).length < 3 := by
    simp [h2]
  unfold add_corner
  simp only []
  rw [if_neg hc1, if_neg hc2]
  simp only [hh]
  exact ⟨_, by simp [h2], rfl⟩


/-! ## The claims -/

/-- C1, the code at the failing input: on the scan `scan.jpg` a rectangle is
completed, the right button clears the corners, and a second rectangle is
completed.  The claim puts the second rectangle (k = 1) under sequence index 1;
the code writes both rectangles to `scan_postcard0.png`, the second over the
first. -/
theorem right_click_then_rectangle_reuses_file_name :
    written_files (main (refCV []) ["scan.jpg"]
      (click_rectangle ⟨10, 10⟩ ⟨110, 10⟩ ⟨110, 60⟩
        ++ [Event.mouse CV_EVENT_RBUTTONDOWN 110 60]
        ++ click_rectangle ⟨20, 20⟩ ⟨220, 20⟩ ⟨220, 120⟩))
      = [("scan_postcard0.png", 50, 100), ("scan_postcard0.png", 100, 200)] := by
  decide!

/-- C2: for distinct first corners `(x1, y1)`, `(x2, y2)` and a raw candidate
`(x, y)`, the 4x4 system of `win_cb` has exactly one solution, the one
`A.inv() * B` computes, and its `(x3, y3)` is the orthogonal projection of the
candidate onto the line through corner 2 perpendicular to segment `1 -> 2`: it
lies on that line, it differs from the candidate by a multiple of `(a, b)`, and
no point of the line is closer to the candidate.  For the corners `(0, 0)`,
`(100, 0)` the result is `(100, y)`. -/
theorem win_cb_solution_is_orthogonal_projection (x1 y1 x2 y2 x y : ℚ)
    (h : (x1, y1) ≠ (x2, y2)) :
    (∀ v : Fin 4 → ℚ,
      (win_cb_A (x2 - x1) (y2 - y1)).mulVec v = win_cb_B x2 y2 x y ↔
        v = AlphaBetaX3Y3 x1 y1 x2 y2 x y) ∧
    (AlphaBetaX3Y3 x1 y1 x2 y2 x y 2 - x2) * (x2 - x1)
      + (AlphaBetaX3Y3 x1 y1 x2 y2 x y 3 - y2) * (y2 - y1) = 0 ∧
    (∃ t : ℚ, AlphaBetaX3Y3 x1 y1 x2 y2 x y 2 - x = t * (x2 - x1) ∧
      AlphaBetaX3Y3 x1 y1 x2 y2 x y 3 - y = t * (y2 - y1)) ∧
    (∀ p q : ℚ, (p - x2) * (x2 - x1) + (q - y2) * (y2 - y1) = 0 →
      (AlphaBetaX3Y3 x1 y1 x2 y2 x y 2 - x) ^ 2 + (AlphaBetaX3Y3 x1 y1 x2 y2 x y 3 - y) ^ 2
        ≤ (p - x) ^ 2 + (q - y) ^ 2) ∧
    (∀ x0 y0 : ℚ, AlphaBetaX3Y3 0 0 100 0 x0 y0 2 = 100 ∧ AlphaBetaX3Y3 0 0 100 0 x0 y0 3 = y0) := by
  have huniq : ∀ v : Fin 4 → ℚ,
      (win_cb_A (x2 - x1) (y2 - y1)).mulVec v = win_cb_B x2 y2 x y ↔
        v = AlphaBetaX3Y3 x1 y1 x2 y2 x y :=
    fun v => cv_inv_solves (win_cb_A_regular h) _ v
  obtain ⟨e0, e1, e2, e3⟩ := AlphaBetaX3Y3_rows h x y
  have hexample : ∀ x0 y0 : ℚ,
      AlphaBetaX3Y3 0 0 100 0 x0 y0 2 = 100 ∧ AlphaBetaX3Y3 0 0 100 0 x0 y0 3 = y0 := by
    intro x0 y0
    obtain ⟨f0, _, _, f3⟩ :=
      @AlphaBetaX3Y3_rows 0 0 100 0 (by norm_num [Prod.ext_iff]) x0 y0
    constructor <;> linarith
  generalize AlphaBetaX3Y3 x1 y1 x2 y2 x y = u at e0 e1 e2 e3 huniq ⊢
  have hperp : (u 2 - x2) * (x2 - x1) + (u 3 - y2) * (y2 - y1) = 0 := by
    linear_combination (x2 - x1) * e0 - (y2 - y1) * e1
  refine ⟨huniq, hperp, ⟨u 1, by linarith, by linarith⟩, ?_, hexample⟩
  intro p q hpq
  have hx : u 2 - x = u 1 * (x2 - x1) := by linarith
  have hy : u 3 - y = u 1 * (y2 - y1) := by linarith
  have hcross : (p - u 2) * (u 2 - x) + (q - u 3) * (u 3 - y) = 0 := by
    rw [hx, hy]
    linear_combination u 1 * hpq - u 1 * hperp
  nlinarith [sq_nonneg (p - u 2), sq_nonneg (q - u 3)]

/-- C2 at the corners `(100, 100)`, `(103, 101)` and the candidate
`(103, 102)`. -/
theorem win_cb_solution_is_orthogonal_projection_witness :
    ((100 : ℚ), (100 : ℚ)) ≠ (103, 101) ∧
      (AlphaBetaX3Y3 100 100 103 101 103 102 2 - 103) * (103 - 100)
        + (AlphaBetaX3Y3 100 100 103 101 103 102 3 - 101) * (101 - 100) = 0 :=
  ⟨by norm_num [Prod.ext_iff],
    (win_cb_solution_is_orthogonal_projection 100 100 103 101 103 102
      (by norm_num [Prod.ext_iff])).2.1⟩

/-- C3, the code at two failing inputs.  First: corners `(100, 100)` and
`(200, 100)` are clicked, the right arrow nudges the pointer twice by half a
pixel, ENTER commits: the third corner is `(201, 100)`, on the line of the
first side, and `(c3 - c2) . (c2 - c1) = 100`.  Second: corners `(100, 100)`
and `(103, 101)` are clicked, the pointer moves to `(103, 102)` and the click
commits: the projection `(102.7, 101.9)` is cut to `(102, 101)`, and
`(c3 - c2) . (c2 - c1) = -3`.  The claim asks for `0` in both. -/
theorem third_corner_off_the_perpendicular :
    (main (refCV []) ["scan.jpg"]
      [Event.mouse CV_EVENT_MOUSEMOVE 100 100, Event.mouse CV_EVENT_LBUTTONDOWN 100 100,
       Event.mouse CV_EVENT_MOUSEMOVE 200 100, Event.mouse CV_EVENT_LBUTTONDOWN 200 100,
       Event.key 83, Event.key 83, Event.key 10]).gui_corners
      = [⟨100, 100⟩, ⟨200, 100⟩, ⟨201, 100⟩, ⟨101, 100⟩] ∧
    third_corner_dot [⟨100, 100⟩, ⟨200, 100⟩, ⟨201, 100⟩, ⟨101, 100⟩] = 100 ∧
    (main (refCV []) ["scan.jpg"]
      (click_rectangle ⟨100, 100⟩ ⟨103, 101⟩ ⟨103, 102⟩)).gui_corners
      = [⟨100, 100⟩, ⟨103, 101⟩, ⟨102, 101⟩, ⟨99, 100⟩] ∧
    third_corner_dot [⟨100, 100⟩, ⟨103, 101⟩, ⟨102, 101⟩, ⟨99, 100⟩] = -3 := by
  decide!

/-- C4: with two display corners `c1`, `c2` committed, the commit of a third
corner `c3 = (x, y)` in `add_corner` appends `c3` and exactly one fourth corner
`c4 = c1 + c3 - c2`; this point satisfies `c2 - c1 = c3 - c4` and
`c3 - c2 = c4 - c1`, and the display corner list then has exactly 4 entries. -/
theorem add_corner_closes_parallelogram (cv : OpenCV) (s : Extractor) (c1 c2 : Point)
    (x y : Int) (h : s.gui_corners = [c1, c2]) :
    (add_corner cv s x y).gui_corners = [c1, c2, ⟨x, y⟩, c1 + ⟨x, y⟩ - c2] ∧
    c2 - c1 = (⟨x, y⟩ : Point) - (c1 + ⟨x, y⟩ - c2) ∧
    (⟨x, y⟩ : Point) - c2 = (c1 + ⟨x, y⟩ - c2) - c1 ∧
    (add_corner cv s x y).gui_corners.length = 4 := by
  have hg : (add_corner cv s x y).gui_corners = [c1, c2, ⟨x, y⟩, c1 + ⟨x, y⟩ - c2] := by
    obtain ⟨hc, pc, e⟩ := add_corner_third cv s x y (by rw [h]; rfl)
    rw [e, save_current_postcard_eq, h]
    rfl
  refine ⟨hg, ?_, ?_, by rw [hg]; rfl⟩
  · show Point.mk (c2.x - c1.x) (c2.y - c1.y)
      = Point.mk (x - (c1.x + x - c2.x)) (y - (c1.y + y - c2.y))
    congr 1 <;> ring
  · show Point.mk (x - c2.x) (y - c2.y)
      = Point.mk (c1.x + x - c2.x - c1.x) (c1.y + y - c2.y - c1.y)
    congr 1 <;> ring

/-- C4 at the corners `(10, 10)`, `(110, 10)` and the third corner
`(110, 60)`. -/
theorem add_corner_closes_parallelogram_witness :
    (add_corner (refCV [])
      { ctor (refCV []) "_postcard" with gui_corners := [⟨10, 10⟩, ⟨110, 10⟩] }
      110 60).gui_corners = [⟨10, 10⟩, ⟨110, 10⟩, ⟨110, 60⟩, ⟨10, 60⟩] :=
  (add_corner_closes_parallelogram (refCV [])
    { ctor (refCV []) "_postcard" with gui_corners := [⟨10, 10⟩, ⟨110, 10⟩] }
    ⟨10, 10⟩ ⟨110, 10⟩ 110 60 rfl).1

/-- C5, the code at two failing inputs.  On `scan.jpg` a rectangle is
completed and saved as `scan_postcard0.png`; the first corner of a new rectangle
is committed, which already increments the sequence index; 'r' then writes the
rotated postcard 0 to `scan_postcard1.png`, and `scan_postcard0.png` keeps the
postcard as it was.  On the playlist `a.jpg`, `b.jpg` with `b.jpg` unreadable,
a rectangle is saved as `a_postcard0.png`; 'n' fails to load `b.jpg`; 'r' then
writes the rotated postcard to `b_postcard0.png`.  The claim has the first file
overwritten in both. -/
theorem rotate_after_commit_or_failed_navigation_changes_file :
    written_files (main (refCV []) ["scan.jpg"]
      (click_rectangle ⟨10, 10⟩ ⟨110, 10⟩ ⟨110, 60⟩
        ++ [Event.mouse CV_EVENT_MOUSEMOVE 300 300, Event.mouse CV_EVENT_LBUTTONDOWN 300 300,
            Event.key 114]))
      = [("scan_postcard0.png", 50, 100), ("scan_postcard1.png", 100, 50)] ∧
    written_files (main (refCV ["b.jpg"]) ["a.jpg", "b.jpg"]
      (click_rectangle ⟨10, 10⟩ ⟨110, 10⟩ ⟨110, 60⟩ ++ [Event.key 110, Event.key 114]))
      = [("a_postcard0.png", 50, 100), ("b_postcard0.png", 100, 50)] := by
  decide!

/-- C6 refuted: on the playlist `a.jpg`, `b.jpg` with `b.jpg` unreadable
and a postcard extracted from `a.jpg`, `goto_next_playlist_image` returns false
and keeps the Scan, but the playlist index goes from 0 to 1 and the current
file name from `a.jpg` to `b.jpg`. -/
theorem failed_navigation_moves_playlist_index :
    ((refCV ["b.jpg"]).imread "b.jpg").empty = true ∧
    postcard_on_first_image.playlist_idx = 0 ∧
    postcard_on_first_image.get_current_filename = "a.jpg" ∧
    (goto_next_playlist_image (refCV ["b.jpg"]) postcard_on_first_image).1 = false ∧
    (goto_next_playlist_image (refCV ["b.jpg"]) postcard_on_first_image).2.playlist_idx = 1 ∧
    (goto_next_playlist_image (refCV ["b.jpg"]) postcard_on_first_image).2.get_current_filename
      = "b.jpg" := by
  decide!

/-- C6 as amended: when decoding the target image fails,
`goto_playlist_image` returns false and leaves the Scan (hires and lores
buffers, display factor), both corner lists, the postcard and the postcard
sequence index as they were, and so do `goto_next_playlist_image` and
`goto_prev_playlist_image`; the playlist index is the target index. -/
theorem goto_playlist_image_decode_failure (cv : OpenCV) (s : Extractor) (idx : Nat)
    (hidx : idx < s.playlist.length)
    (hfail : (cv.imread (s.playlist.getD idx "")).empty = true) :
    (goto_playlist_image cv s idx).1 = false ∧
    same_scan_corners_postcard s (goto_playlist_image cv s idx).2 ∧
    (goto_playlist_image cv s idx).2.playlist_idx = idx ∧
    (idx = s.next_image_idx →
      (goto_next_playlist_image cv s).1 = false ∧
      same_scan_corners_postcard s (goto_next_playlist_image cv s).2 ∧
      (goto_next_playlist_image cv s).2.playlist_idx = idx) ∧
    (idx = s.prev_image_idx →
      (goto_prev_playlist_image cv s).1 = false ∧
      same_scan_corners_postcard s (goto_prev_playlist_image cv s).2 ∧
      (goto_prev_playlist_image cv s).2.playlist_idx = idx) := by
  have h : goto_playlist_image cv s idx = (false, { s with playlist_idx := idx }) := by
    unfold goto_playlist_image load_playlist_image
    simp only [ge_iff_le, not_le.mpr hidx, if_false]
    have hfail1 :
        (cv.imread (get_current_filename { s with playlist_idx := idx })).empty = true := hfail
    rw [if_pos hfail1]
  have hmain : (goto_playlist_image cv s idx).1 = false ∧
      same_scan_corners_postcard s (goto_playlist_image cv s idx).2 ∧
      (goto_playlist_image cv s idx).2.playlist_idx = idx := by
    rw [h]
    exact ⟨rfl, ⟨rfl, rfl, rfl, rfl, rfl, rfl, rfl⟩, rfl⟩
  refine ⟨hmain.1, hmain.2.1, hmain.2.2, ?_, ?_⟩
  · intro hn
    unfold goto_next_playlist_image
    rw [← hn]
    exact hmain
  · intro hp
    unfold goto_prev_playlist_image
    rw [← hp]
    exact hmain

/-- C6 as amended, on the playlist `a.jpg`, `b.jpg` with `b.jpg`
unreadable: the step from `a.jpg` to `b.jpg` fails and keeps the Scan, the
corners and the postcard. -/
theorem goto_playlist_image_decode_failure_witness :
    1 < postcard_on_first_image.playlist.length ∧
    ((refCV ["b.jpg"]).imread (postcard_on_first_image.playlist.getD 1 "")).empty = true ∧
    1 = postcard_on_first_image.next_image_idx ∧
    (goto_next_playlist_image (refCV ["b.jpg"]) postcard_on_first_image).1 = false ∧
    same_scan_corners_postcard postcard_on_first_image
      (goto_next_playlist_image (refCV ["b.jpg"]) postcard_on_first_image).2 :=
  ⟨by decide!, by decide!, by decide!,
    ((goto_playlist_image_decode_failure (refCV ["b.jpg"]) postcard_on_first_image 1
      (by decide!) (by decide!)).2.2.2.1 (by decide!)).1,
    ((goto_playlist_image_decode_failure (refCV ["b.jpg"]) postcard_on_first_image 1
      (by decide!) (by decide!)).2.2.2.1 (by decide!)).2.1⟩

/-- C7: for a postcard that is not empty, one 'r' (transpose, then flip with
code 0) swaps rows and columns, four 'r' give back the original dimensions and
content, and two 'f', two 'v' (flip code 1) or two 'h' (flip code 0) give back
the original postcard. -/
theorem rotate_four_times_flip_twice_identity (cv : OpenCV) (s : Extractor)
    (h : s.postcard.empty = false) :
    (run_events cv s [Event.key 114]).postcard.rows = s.postcard.cols ∧
    (run_events cv s [Event.key 114]).postcard.cols = s.postcard.rows ∧
    (run_events cv s [Event.key 114, Event.key 114, Event.key 114, Event.key 114]).postcard
      = s.postcard ∧
    (run_events cv s [Event.key 102, Event.key 102]).postcard = s.postcard ∧
    (run_events cv s [Event.key 118, Event.key 118]).postcard = s.postcard ∧
    (run_events cv s [Event.key 104, Event.key 104]).postcard = s.postcard := by
  have hr : ∀ (u : Extractor) (es : List Event), u.postcard.empty = false →
      run_events cv u (Event.key 114 :: es) =
        run_events cv
          (save_current_postcard { u with postcard := flip (transpose u.postcard) 0 }) es := by
    intro u es hu
    rw [run_events, handle, run_key_rotate cv u hu]
  have hf : ∀ (u : Extractor) (es : List Event), u.postcard.empty = false →
      run_events cv u (Event.key 102 :: es) =
        run_events cv (save_current_postcard { u with postcard := flip u.postcard 1 }) es := by
    intro u es hu
    rw [run_events, handle, run_key_flip_f cv u hu]
  have hv : ∀ (u : Extractor) (es : List Event), u.postcard.empty = false →
      run_events cv u (Event.key 118 :: es) =
        run_events cv (save_current_postcard { u with postcard := flip u.postcard 1 }) es := by
    intro u es hu
    rw [run_events, handle, run_key_flip_v cv u hu]
  have hh : ∀ (u : Extractor) (es : List Event), u.postcard.empty = false →
      run_events cv u (Event.key 104 :: es) =
        run_events cv (save_current_postcard { u with postcard := flip u.postcard 0 }) es := by
    intro u es hu
    rw [run_events, handle, run_key_flip_h cv u hu]
  have hsp : ∀ (u : Extractor) (m : Mat),
      (save_current_postcard { u with postcard := m }).postcard = m := by
    intro u m
    rw [save_current_postcard_postcard]
  have hq : ∀ m : Mat, m.empty = false → (flip (transpose m) 0).empty = false := by
    intro m hm
    rw [quarter_turn_empty]; exact hm
  refine ⟨?_, ?_, ?_, ?_, ?_, ?_⟩
  · rw [hr s [] h, run_events, hsp]; rfl
  · rw [hr s [] h, run_events, hsp]; rfl
  · rw [hr s _ h, hr _ _ (by rw [hsp]; exact hq _ h),
      hr _ _ (by rw [hsp, hsp]; exact hq _ (hq _ h)),
      hr _ _ (by rw [hsp, hsp, hsp]; exact hq _ (hq _ (hq _ h))), run_events]
    simp only [hsp]
    exact four_quarter_turns s.postcard
  · rw [hf s _ h, hf _ _ (by rw [hsp]; exact h), run_events]
    simp only [hsp]
    exact flip_one_flip_one s.postcard
  · rw [hv s _ h, hv _ _ (by rw [hsp]; exact h), run_events]
    simp only [hsp]
    exact flip_one_flip_one s.postcard
  · rw [hh s _ h, hh _ _ (by rw [hsp]; exact h), run_events]
    simp only [hsp]
    exact flip_zero_flip_zero s.postcard

/-- C7 on the `50 x 100` postcard of `scan.jpg`: four 'r' give it back. -/
theorem rotate_four_times_flip_twice_identity_witness :
    (add_corner (refCV []) two_corners_picked 110 60).postcard.empty = false ∧
    (run_events (refCV []) (add_corner (refCV []) two_corners_picked 110 60)
      [Event.key 114, Event.key 114, Event.key 114, Event.key 114]).postcard
      = (add_corner (refCV []) two_corners_picked 110 60).postcard :=
  ⟨by decide!,
    (rotate_four_times_flip_twice_identity (refCV [])
      (add_corner (refCV []) two_corners_picked 110 60) (by decide!)).2.2.1⟩

/-- C8: for a playlist that is not empty, of a length `N` an `unsigned int`
can hold, and a current index `i < N`, `goto_next_playlist_image` sets the
playlist index to `(i + 1) mod N` and `goto_prev_playlist_image` to
`(i + N - 1) mod N`, so that prev from `0` gives `N - 1` and next from `N - 1`
gives `0`; the index stays below `N` after every sequence of events. -/
theorem playlist_navigation_is_cyclic (cv : OpenCV) (s : Extractor)
    (hN : 0 < s.playlist.length) (hU : s.playlist.length ≤ UINT_MOD)
    (hi : s.playlist_idx < s.playlist.length) :
    (goto_next_playlist_image cv s).2.playlist_idx
      = (s.playlist_idx + 1) % s.playlist.length ∧
    (goto_prev_playlist_image cv s).2.playlist_idx
      = (s.playlist_idx + s.playlist.length - 1) % s.playlist.length ∧
    (goto_prev_playlist_image cv { s with playlist_idx := 0 }).2.playlist_idx
      = s.playlist.length - 1 ∧
    (goto_next_playlist_image cv
      { s with playlist_idx := s.playlist.length - 1 }).2.playlist_idx = 0 ∧
    (∀ es : List Event,
      (run_events cv s es).playlist = s.playlist ∧
      (run_events cv s es).playlist_idx < s.playlist.length) := by
  have key : ∀ u : Extractor, 0 < u.playlist.length → u.playlist.length ≤ UINT_MOD →
      u.playlist_idx < u.playlist.length →
      (goto_next_playlist_image cv u).2.playlist_idx
        = (u.playlist_idx + 1) % u.playlist.length ∧
      (goto_prev_playlist_image cv u).2.playlist_idx
        = (u.playlist_idx + u.playlist.length - 1) % u.playlist.length := by
    intro u hN hU hi
    have hmod : ∀ k, k % u.playlist.length < u.playlist.length := fun k => Nat.mod_lt _ hN
    have hnext : u.next_image_idx = (u.playlist_idx + 1) % u.playlist.length := by
      unfold next_image_idx
      have h1 : (u.playlist_idx + 1) % UINT_MOD % u.playlist.length
          = (u.playlist_idx + 1) % u.playlist.length := by
        rcases Nat.lt_or_ge (u.playlist_idx + 1) UINT_MOD with hlt | hge
        · rw [Nat.mod_eq_of_lt hlt]
        · have hN1 : u.playlist.length = UINT_MOD := by omega
          have hi1 : u.playlist_idx + 1 = UINT_MOD := by omega
          rw [hi1, hN1, Nat.mod_self, Nat.zero_mod]
      rw [h1]
      exact Nat.mod_eq_of_lt (lt_of_lt_of_le (hmod _) hU)
    have hprev : u.prev_image_idx
        = (u.playlist_idx + u.playlist.length - 1) % u.playlist.length := by
      unfold prev_image_idx
      have hU1 : UINT_MOD = 2 ^ 32 := rfl
      have hS : SIZE_MOD = 2 ^ 64 := rfl
      have h1 : (u.playlist_idx + u.playlist.length + (SIZE_MOD - 1)) % SIZE_MOD
          = u.playlist_idx + u.playlist.length - 1 := by
        have : u.playlist_idx + u.playlist.length + (SIZE_MOD - 1)
            = (u.playlist_idx + u.playlist.length - 1) + SIZE_MOD := by omega
        rw [this, Nat.add_mod_right]
        exact Nat.mod_eq_of_lt (by omega)
      rw [h1]
      exact Nat.mod_eq_of_lt (lt_of_lt_of_le (hmod _) hU)
    have hgo : ∀ idx, idx < u.playlist.length →
        (goto_playlist_image cv u idx).2.playlist_idx = idx := by
      intro idx hidx
      rw [(goto_playlist_image_frame cv u idx).2.2, if_pos hidx]
    constructor
    · unfold goto_next_playlist_image
      rw [hnext]
      exact hgo _ (hmod _)
    · unfold goto_prev_playlist_image
      rw [hprev]
      exact hgo _ (hmod _)
  refine ⟨(key s hN hU hi).1, (key s hN hU hi).2, ?_, ?_, ?_⟩
  · rw [(key { s with playlist_idx := 0 } hN hU hN).2]
    show (0 + s.playlist.length - 1) % s.playlist.length = s.playlist.length - 1
    rw [Nat.zero_add]
    exact Nat.mod_eq_of_lt (by omega)
  · rw [(key { s with playlist_idx := s.playlist.length - 1 } hN hU
      (show s.playlist.length - 1 < s.playlist.length by omega)).1]
    show (s.playlist.length - 1 + 1) % s.playlist.length = 0
    rw [Nat.sub_add_cancel hN, Nat.mod_self]
  · intro es
    exact ⟨(run_events_inv cv es s).1, (run_events_inv cv es s).2.1 hi⟩

/-- C8 on the playlist `a.jpg`, `b.jpg` at index 0: next gives 1. -/
theorem playlist_navigation_is_cyclic_witness :
    0 < postcard_on_first_image.playlist.length ∧
    postcard_on_first_image.playlist.length ≤ UINT_MOD ∧
    postcard_on_first_image.playlist_idx < postcard_on_first_image.playlist.length ∧
    (goto_next_playlist_image (refCV ["b.jpg"]) postcard_on_first_image).2.playlist_idx
      = (postcard_on_first_image.playlist_idx + 1) % postcard_on_first_image.playlist.length :=
  ⟨by decide!, by decide!, by decide!,
    (playlist_navigation_is_cyclic (refCV ["b.jpg"]) postcard_on_first_image
      (by decide!) (by decide!) (by decide!)).1⟩

/-- C9: `remove_filename_extension` removes exactly the extension of the final
path component.  If the part of the path after its last `'/'` has no `'.'`, the
path is returned unchanged; otherwise the path is the result followed by a tail
that starts with `'.'` and has no `'/'` and no further `'.'`.  The four examples
of the source hold. -/
theorem remove_filename_extension_removes_final_extension (path : String) :
    ('.' ∉ final_component path.data → remove_filename_extension path = path) ∧
    ('.' ∈ final_component path.data →
      ∃ tail, path.data = (remove_filename_extension path).data ++ '.' :: tail ∧
        '/' ∉ tail ∧ '.' ∉ tail) ∧
    remove_filename_extension "/foo/bar" = "/foo/bar" ∧
    remove_filename_extension "/foo/bar.dat" = "/foo/bar" ∧
    remove_filename_extension "/foo.zim/bar.dat" = "/foo.zim/bar" ∧
    remove_filename_extension "/foo.zim/bar" = "/foo.zim/bar" := by
  obtain ⟨h1, h2⟩ := remove_filename_extension_chars_spec path.data
  refine ⟨fun h => ?_, fun h => h2 h, by decide, by decide, by decide, by decide⟩
  unfold remove_filename_extension
  rw [h1 h]

/-- C9 on `/foo.zim/bar.dat` and on `/foo.zim/bar`. -/
theorem remove_filename_extension_removes_final_extension_witness :
    ('.' ∈ final_component "/foo.zim/bar.dat".data ∧
      ∃ tail, "/foo.zim/bar.dat".data
          = (remove_filename_extension "/foo.zim/bar.dat").data ++ '.' :: tail ∧
        '/' ∉ tail ∧ '.' ∉ tail) ∧
    ('.' ∉ final_component "/foo.zim/bar".data ∧
      remove_filename_extension "/foo.zim/bar" = "/foo.zim/bar") :=
  ⟨⟨by decide,
      (remove_filename_extension_removes_final_extension "/foo.zim/bar.dat").2.1 (by decide)⟩,
    ⟨by decide,
      (remove_filename_extension_removes_final_extension "/foo.zim/bar").1 (by decide)⟩⟩

/-- C10: the zoom level starts at 50; zoom-in ('+') maps the level `z` to
`max (z - 1) 1` and zoom-out ('-') maps it to `z + 1`; after every sequence of
events of a session the zoom level is at least 1; `n` zoom-in commands in a row
from the start give `max (50 - n) 1`, which is exactly 1 from 49 commands on. -/
theorem zoom_level_floor_is_one :
    (∀ (cv : OpenCV) (postcard_suffix : String), (ctor cv postcard_suffix).zoom_level = 50) ∧
    (∀ (cv : OpenCV) (s : Extractor),
      (run_key cv s 43).map (fun t => t.zoom_level) = some (max (s.zoom_level - 1) 1) ∧
      (run_key cv s (-85)).map (fun t => t.zoom_level) = some (max (s.zoom_level - 1) 1)) ∧
    (∀ (cv : OpenCV) (s : Extractor),
      (run_key cv s 45).map (fun t => t.zoom_level) = some (s.zoom_level + 1) ∧
      (run_key cv s (-83)).map (fun t => t.zoom_level) = some (s.zoom_level + 1)) ∧
    (∀ (cv : OpenCV) (filenames : List String) (events : List Event),
      1 ≤ (main cv filenames events).zoom_level) ∧
    (∀ (cv : OpenCV) (postcard_suffix : String) (n : Nat),
      (run_events cv (ctor cv postcard_suffix) (List.replicate n (Event.key 43))).zoom_level
        = max (50 - (n : ℚ)) 1) ∧
    (∀ (cv : OpenCV) (postcard_suffix : String) (n : Nat),
      (run_events cv (ctor cv postcard_suffix)
        (List.replicate (49 + n) (Event.key 43))).zoom_level = 1) := by
  have hin : ∀ (cv : OpenCV) (s : Extractor) (c : Int), c = 43 ∨ c = -85 →
      run_key cv s c = some { s with zoom_level := max (s.zoom_level - 1) 1 } := by
    intro cv s c hc
    rcases hc with rfl | rfl <;> simp [run_key, recompute_zoom_and_redraw, redraw_final_window]
  have hout : ∀ (cv : OpenCV) (s : Extractor) (c : Int), c = 45 ∨ c = -83 →
      run_key cv s c = some { s with zoom_level := s.zoom_level + 1 } := by
    intro cv s c hc
    rcases hc with rfl | rfl <;> simp [run_key, recompute_zoom_and_redraw, redraw_final_window]
  have hrep : ∀ (cv : OpenCV) (n : Nat) (s : Extractor), 1 ≤ s.zoom_level →
      (run_events cv s (List.replicate n (Event.key 43))).zoom_level
        = max (s.zoom_level - (n : ℚ)) 1 := by
    intro cv n
    induction n with
    | zero =>
      intro s hs
      simp only [List.replicate, run_events, Nat.cast_zero, sub_zero]
      exact (max_eq_left hs).symm
    | succ k ih =>
      intro s hs
      rw [List.replicate_succ, run_events, handle, hin cv s 43 (Or.inl rfl)]
      simp only []
      rw [ih _ (le_max_right _ _)]
      show max (max (s.zoom_level - 1) 1 - (k : ℚ)) 1 = max (s.zoom_level - ((k + 1 : ℕ) : ℚ)) 1
      have hk : (0 : ℚ) ≤ (k : ℚ) := Nat.cast_nonneg k
      push_cast
      rcases le_total (s.zoom_level - 1) 1 with h1 | h1
      · rw [max_eq_right h1, max_eq_right (by linarith), max_eq_right (by linarith)]
      · rw [max_eq_left h1]
        congr 1
        ring
  have hctor : ∀ (cv : OpenCV) (postcard_suffix : String),
      (ctor cv postcard_suffix).zoom_level = 50 := fun cv p => ctor_zoom_level cv p
  refine ⟨hctor, ?_, ?_, ?_, ?_, ?_⟩
  · intro cv s
    rw [hin cv s 43 (Or.inl rfl), hin cv s (-85) (Or.inr rfl)]
    exact ⟨rfl, rfl⟩
  · intro cv s
    rw [hout cv s 45 (Or.inl rfl), hout cv s (-83) (Or.inr rfl)]
    exact ⟨rfl, rfl⟩
  · intro cv filenames events
    have h50 : (1 : ℚ) ≤ (ctor cv "_postcard").zoom_level := by
      rw [hctor]; norm_num
    unfold main
    simp only []
    cases hl : load_playlist_images cv (ctor cv "_postcard") filenames with
    | none => exact h50
    | some r =>
      simp only []
      refine (run_events_inv cv events r.2).2.2 ?_
      rw [load_playlist_images_zoom_level cv _ filenames r hl]
      exact h50
  · intro cv p n
    rw [hrep cv n _ (by rw [hctor]; norm_num), hctor]
  · intro cv p n
    rw [hrep cv _ _ (by rw [hctor]; norm_num), hctor]
    push_cast
    exact max_eq_right (by linarith [(Nat.cast_nonneg n : (0 : ℚ) ≤ (n : ℚ))])

/-- C12 refuted: on `scan.jpg` the left button goes down three times at the
display point `(50, 50)`.  The three hires corners coincide, width and height
come out as 0 pixels, and `add_corner` still runs the warp and the save: the
warp, given a size without pixels, fills a buffer of the size of the scan, and
that buffer is written to `scan_postcard0.png`. -/
theorem degenerate_commit_still_warps_and_saves :
    same_corner_twice.gui_corners = [⟨50, 50⟩, ⟨50, 50⟩] ∧
    (add_corner (refCV []) same_corner_twice 50 50).hires_corners
      = [⟨40, 40⟩, ⟨40, 40⟩, ⟨40, 40⟩] ∧
    trunc_sqrt (dist_L2_sq ⟨40, 40⟩ ⟨40, 40⟩) = 0 ∧
    (add_corner (refCV []) same_corner_twice 50 50).postcard.empty = false ∧
    written_files (main (refCV []) ["scan.jpg"]
      [Event.mouse CV_EVENT_MOUSEMOVE 50 50, Event.mouse CV_EVENT_LBUTTONDOWN 50 50,
       Event.mouse CV_EVENT_LBUTTONDOWN 50 50, Event.mouse CV_EVENT_LBUTTONDOWN 50 50])
      = [("scan_postcard0.png", 600, 800)] := by
  decide!

/-- C12 as amended: a third-corner commit whose width `|P0 P1|` or height
`|P1 P2|` comes out as 0 pixels is not rejected.  `add_corner` appends the third
and the fourth corner, creates a buffer without pixels (0 rows or 0 columns),
runs the affine solve and the warp on it and calls `save_current_postcard`;
the postcard is what the warp returns, and it is written under the current
postcard file name unless it is empty, in which case no file is written. -/
theorem add_corner_has_no_degenerate_guard (cv : OpenCV) (s : Extractor) (x y : Int)
    (P0 P1 : Point2f) (h2 : s.gui_corners.length = 2) (hh : s.hires_corners = [P0, P1])
    (hdeg : dist_L2_sq P0 P1 < 1 ∨ dist_L2_sq P1 (hires_of s x y) < 1) :
    trunc_sqrt (dist_L2_sq P1 (hires_of s x y)) * trunc_sqrt (dist_L2_sq P0 P1) = 0 ∧
    (add_corner cv s x y).gui_corners.length = 4 ∧
    (add_corner cv s x y).hires_corners = [P0, P1, hires_of s x y] ∧
    (add_corner cv s x y).postcard
      = cv.warpAffine s.scan_img_hires P0 P1 (hires_of s x y)
          (trunc_sqrt (dist_L2_sq P1 (hires_of s x y))) (trunc_sqrt (dist_L2_sq P0 P1)) ∧
    (add_corner cv s x y).written
      = s.written ++
          (if (add_corner cv s x y).postcard.empty then []
           else [(s.get_current_postcard_filename, (add_corner cv s x y).postcard)]) := by
  obtain ⟨gc, hgc, e⟩ := add_corner_third_postcard cv s x y P0 P1 h2 hh
  have hzero : trunc_sqrt (dist_L2_sq P1 (hires_of s x y)) * trunc_sqrt (dist_L2_sq P0 P1)
      = 0 := by
    rcases hdeg with h | h
    · rw [(trunc_sqrt_eq_zero _).mpr h, Nat.mul_zero]
    · rw [(trunc_sqrt_eq_zero _).mpr h, Nat.zero_mul]
  rw [e, save_current_postcard_eq]
  exact ⟨hzero, hgc, rfl, rfl, rfl⟩

/-- C12 as amended, on `scan.jpg` after two clicks at `(50, 50)` and a third
commit there: the three hires corners are `(40, 40)`, and the buffer is created
with 0 rows and 0 columns. -/
theorem add_corner_has_no_degenerate_guard_witness :
    same_corner_twice.gui_corners.length = 2 ∧
    same_corner_twice.hires_corners = [⟨40, 40⟩, ⟨40, 40⟩] ∧
    (dist_L2_sq ⟨40, 40⟩ ⟨40, 40⟩ < 1 ∨
      dist_L2_sq ⟨40, 40⟩ (hires_of same_corner_twice 50 50) < 1) ∧
    (add_corner (refCV []) same_corner_twice 50 50).postcard
      = (refCV []).warpAffine same_corner_twice.scan_img_hires ⟨40, 40⟩ ⟨40, 40⟩
          (hires_of same_corner_twice 50 50)
          (trunc_sqrt (dist_L2_sq ⟨40, 40⟩ (hires_of same_corner_twice 50 50)))
          (trunc_sqrt (dist_L2_sq ⟨40, 40⟩ ⟨40, 40⟩)) :=
  ⟨by decide!, by decide!, by decide!,
    (add_corner_has_no_degenerate_guard (refCV []) same_corner_twice 50 50
      ⟨40, 40⟩ ⟨40, 40⟩ (by decide!) (by decide!) (by decide!)).2.2.2.1⟩


end PSE
